import Mathlib

/-!
Verification of the file-spec uploader (PDF-to-JPG plugin) against its
natural-language specification.

The development shallowly embeds the three Python source files:

* `implemented_code.py` — the standalone `Uploader` whose
  `validate_file_types` performs the category-then-type extension check
  with conversion warnings (embedded below as `validate_file_typesW` /
  `validate_file_types`);
* `plugin/__init__.py` — `BaseUploader`, whose `validate_file_types`
  checks only the spec's `file_type` (embedded as
  `base_validate_file_types`) and whose `handle_upload_files` runs the
  staged pipeline (embedded as `handle_upload_files`);
* `plugin/upload.py` — the `Uploader.before_process` PDF fan-out
  (embedded as `before_process`).

Python values are modelled as follows: paths are strings with
`pathlib`-style `suffix` / `stem` / `name` accessors (`pySuffix`,
`pyStem`, `pyName`); insertion-ordered dicts are association lists with
Python assignment semantics (`dictGet`, `dictSet`); exceptions escaping
to the caller are `Except PyErr`; log lines emitted through
`run.log_message` are structured `LogMsg` values recording exactly the
data interpolated into the Python message.  The configuration tables
hard-coded in `implemented_code.py` are taken as parameters (suffix `W`)
and then instantiated with the literal tables from the source, so that
table-generic facts (and the source function itself) are both available.
-/

/-! ### Strings and pathlib accessors -/

/-- `str.lower()` (character-wise; extensions in the tables are ASCII). -/
def strLower (s : String) : String := ⟨s.data.map Char.toLower⟩

/-- The characters after the last `/`, i.e. `pathlib.PurePath.name`
viewed on the raw character list. -/
def afterLastSlash (cs : List Char) : List Char :=
  (cs.reverse.takeWhile (fun c => c ≠ '/')).reverse

/-- Index of the last `.` in the list, i.e. Python `name.rfind('.')`
restricted to the found case. -/
def lastDotPos (cs : List Char) : Option Nat :=
  match cs.reverse.findIdx? (fun c => c = '.') with
  | none => none
  | some k => some (cs.length - 1 - k)

/-- `pathlib.PurePath.suffix`: with `i = name.rfind('.')`, the slice
`name[i:]` when `0 < i < len(name) - 1`, else `''`. -/
def pySuffix (s : String) : String :=
  match lastDotPos (afterLastSlash s.data) with
  | some i =>
    if 0 < i ∧ i < (afterLastSlash s.data).length - 1 then
      ⟨(afterLastSlash s.data).drop i⟩
    else ""
  | none => ""

/-- `pathlib.PurePath.stem`: the name with its suffix removed. -/
def pyStem (s : String) : String :=
  match lastDotPos (afterLastSlash s.data) with
  | some i =>
    if 0 < i ∧ i < (afterLastSlash s.data).length - 1 then
      ⟨(afterLastSlash s.data).take i⟩
    else ⟨afterLastSlash s.data⟩
  | none => ⟨afterLastSlash s.data⟩

/-- `pathlib.PurePath.name`: the final path component. -/
def pyName (s : String) : String := ⟨afterLastSlash s.data⟩

/-! ### Insertion-ordered dicts as association lists -/

/-- Python `d.get(k)` / `d[k]` lookup: first entry with the key. -/
def dictGet {α : Type} (l : List (String × α)) (k : String) : Option α :=
  match l.find? (fun kv => kv.1 == k) with
  | some kv => some kv.2
  | none => none

/-- Python `d[k] = v`: overwrite in place when the key is present,
append otherwise (insertion order preserved). -/
def dictSet {α : Type} (l : List (String × α)) (k : String) (v : α) :
    List (String × α) :=
  if (l.find? (fun kv => kv.1 == k)).isSome then
    l.map (fun kv => if kv.1 == k then (k, v) else kv)
  else l ++ [(k, v)]

/-! ### Data model -/

/-- A slot value in a file group's `files` dict: a path, or a list of
paths (the sources treat both). -/
inductive FileVal where
  | path : String → FileVal
  | flist : List String → FileVal
deriving DecidableEq, Repr

/-- Metadata / opaque payload values (`meta` entries and other
non-`files` keys): the numbers and strings the claims observe. -/
inductive MVal where
  | nat : Nat → MVal
  | str : String → MVal
deriving DecidableEq, Repr

/-- One organized file group: the `files` dict, the `meta` dict, and the
remaining opaque top-level keys.  A group without a `'meta'` key is
modelled by `meta = []`, observationally identical for every embedded
operation. -/
structure FileGroup where
  files : List (String × FileVal)
  meta : List (String × MVal)
  extra : List (String × MVal)
deriving DecidableEq, Repr

/-- One file-specification entry (`{'name': …, 'file_type': …}`; other
keys are never read by the sources). -/
structure FileSpec where
  name : String
  file_type : String
deriving DecidableEq, Repr

/-- Python exceptions that can escape `validate_file_types` in
`implemented_code.py`. -/
inductive PyErr where
  /-- `file_spec['file_type']` with `file_spec = None` (line 125). -/
  | typeError
  /-- `file_path.suffix` on a list that was not unwrapped (line 126). -/
  | attributeError
  /-- `allowed_extensions[file_category]` with an absent key (line 151). -/
  | keyError (key : String)
deriving DecidableEq, Repr

/-- A `run.log_message` (or `log_message_with_code`) call, recording the
data interpolated into the message. -/
inductive LogMsg where
  /-- `implemented_code.py` line 165: invalid extensions for a slot. -/
  | validationWarning (spec_name : String) (invalid : List String)
      (expected : List String)
  /-- `implemented_code.py` line 171: conversion suggestion. -/
  | conversionWarning (spec_name : String) (ext : String) (formats : String)
  /-- `plugin/__init__.py` line 255: `LogCode.FILES_FILTERED_BY_EXTENSION`. -/
  | filteredByExtension (count : Nat) (file_type : String)
      (extensions : List String) (allowed : List String)
  /-- `plugin/upload.py` line 123: one converted page. -/
  | pageConverted (page : Nat) (path : String)
  /-- `plugin/upload.py` line 126: conversion success summary. -/
  | pdfConverted (path : String) (pages : Nat)
  /-- `plugin/upload.py` line 131: converter failure. -/
  | pdfError (path : String) (err : String)
deriving DecidableEq, Repr

/-! ### `implemented_code.py` — `Uploader.validate_file_types`
(lines 77–175).  The configuration tables are literal in the source; the
checking code reads them only through membership and lookup, so the
embedding takes them as parameters (suffix `W`) and `validate_file_types`
instantiates the literal tables. -/

/-- Lines 92–99: `allowed_extensions` of `implemented_code.py`. -/
def allowed_extensions : List (String × List String) :=
  [("pcd", [".pcd"]),
   ("text", [".txt", ".html"]),
   ("audio", [".wav", ".mp3"]),
   ("data", [".bin", ".json", ".fbx"]),
   ("image", [".jpg", ".jpeg", ".png"]),
   ("video", [".mp4"])]

/-- Line 102: `warning_extensions = ['.tif', '.tiff'] + ['.avi', '.mov', '.mkv', '.wmv']`. -/
def warning_extensions : List String :=
  [".tif", ".tiff"] ++ [".avi", ".mov", ".mkv", ".wmv"]

/-- Lines 103–110: `conversion_warnings`. -/
def conversion_warnings : List (String × String) :=
  [(".tif", " .jpg, .png"),
   (".tiff", " .jpg, .png"),
   (".avi", " .mp4"),
   (".mov", " .mp4"),
   (".mkv", " .mp4"),
   (".wmv", " .mp4")]

/-- Lines 120–121: `file_path = file_path[0] if len(file_path) == 1 else
file_path` (only applied when the value is a list). -/
def normalizeSlot (v : FileVal) : FileVal :=
  match v with
  | .path p => .path p
  | .flist [p] => .path p
  | .flist ps => .flist ps

/-- Line 124: `spec_name.split('_')[0]` — the slot-name prefix before
the first underscore (the whole name when there is none). -/
def categoryOf (s : String) : String := ⟨s.data.takeWhile (fun c => c ≠ '_')⟩

/-- Outcome of the per-slot checks, lines 128–152: fall through to the
next slot, or `break` out of the group with a warning or an invalid
record. -/
inductive SlotRes where
  | cont
  | warnStop (ext : String)
  | invalidStop (ext : String) (expected : List String)
deriving DecidableEq, Repr

/-- Lines 117–152, one slot.  Order of effects matches the source:
`next(…, None)` never raises; line 125 `file_spec['file_type']` raises
`TypeError` when the spec is `None`; line 126 `file_path.suffix` raises
`AttributeError` when the value is still a list; line 129 checks
`warning_extensions` first; lines 135–143 check the slot-name category;
lines 145–152 fall back to the spec's `file_type`, where the `else`
branch evaluates `allowed_extensions[file_category]` (line 151) with
`file_category` *not* a key — a `KeyError` — before the record could be
stored or the `break` reached. -/
def checkSlotW (allowed : List (String × List String)) (specs : List FileSpec)
    (spec_name : String) (fv : FileVal) : Except PyErr SlotRes :=
  match specs.find? (fun s => s.name == spec_name) with
  | none => .error .typeError
  | some file_spec =>
    match normalizeSlot fv with
    | .flist _ => .error .attributeError
    | .path p =>
      let file_category := categoryOf spec_name
      let file_type := file_spec.file_type
      let file_extension := strLower (pySuffix p)
      if file_extension ∈ warning_extensions then
        .ok (.warnStop file_extension)
      else
        match dictGet allowed file_category with
        | some exp =>
          if file_extension ∈ exp then .ok .cont
          else .ok (.invalidStop file_extension exp)
        | none =>
          match dictGet allowed file_type with
          | some texp =>
            if file_extension ∈ texp then .ok .cont
            else .error (.keyError file_category)
          | none => .ok .cont

/-- The violation record stored per slot name (line 155):
`{'invalid': …, 'expected': …}` and `{'warning': …}` dicts, with `none`
modelling the empty dict `{}`. -/
structure Violation where
  invalid : Option (List String × List String)
  warning : Option (List String)
deriving DecidableEq, Repr

/-- Per-group outcome of lines 113–160: kept, or excluded with the
record keyed by the slot that triggered the `break`.  The local dicts
`invalid_case` / `warning_case` hold at most the breaking slot's entry,
because every insertion into them is immediately followed by `break`. -/
inductive GroupRes where
  | valid
  | violation (spec_name : String) (v : Violation)
deriving DecidableEq, Repr

/-- Lines 117–152: scan the group's slots in insertion order, stopping at
the first warning or invalid slot. -/
def checkGroupW (allowed : List (String × List String)) (specs : List FileSpec) :
    List (String × FileVal) → Except PyErr GroupRes
  | [] => .ok .valid
  | (spec_name, fv) :: rest =>
    match checkSlotW allowed specs spec_name fv with
    | .error e => .error e
    | .ok .cont => checkGroupW allowed specs rest
    | .ok (.warnStop ext) =>
      .ok (.violation spec_name ⟨none, some [ext]⟩)
    | .ok (.invalidStop ext exp) =>
      .ok (.violation spec_name ⟨some ([ext], exp), none⟩)

/-- Lines 113–160: the group loop, accumulating `valid_files` and
`all_violation_case` (a dict keyed by the breaking slot's name, so a
later group's record overwrites an earlier one under the same name). -/
def validateLoopW (allowed : List (String × List String)) (specs : List FileSpec) :
    List FileGroup → List FileGroup → List (String × Violation) →
    Except PyErr (List FileGroup × List (String × Violation))
  | [], acc, viol => .ok (acc, viol)
  | g :: gs, acc, viol =>
    match checkGroupW allowed specs g.files with
    | .error e => .error e
    | .ok .valid => validateLoopW allowed specs gs (acc ++ [g]) viol
    | .ok (.violation n v) => validateLoopW allowed specs gs acc (dictSet viol n v)

/-- Lines 163–173: the reporting loop for one `all_violation_case`
entry: one validation warning when `invalid` is populated, and one
conversion warning per warned extension present in
`conversion_warnings`. -/
def reportViolation (kv : String × Violation) : List LogMsg :=
  (match kv.2.invalid with
   | some (inv, exp) => [LogMsg.validationWarning kv.1 inv exp]
   | none => []) ++
  (match kv.2.warning with
   | some warns =>
     warns.flatMap (fun w =>
       match dictGet conversion_warnings w with
       | some formats => [LogMsg.conversionWarning kv.1 w formats]
       | none => [])
   | none => [])

/-- Lines 163–173 over the whole violations dict, in insertion order. -/
def reportAll (viol : List (String × Violation)) : List LogMsg :=
  viol.flatMap reportViolation

/-- The full result of one `validate_file_types` call: the returned
list, the local `all_violation_case` dict, and the emitted log lines. -/
structure VOut where
  valid_files : List FileGroup
  violations : List (String × Violation)
  logs : List LogMsg
deriving DecidableEq, Repr

/-- `Uploader.validate_file_types` of `implemented_code.py`, with the
extension table as a parameter. -/
def validate_file_typesW (allowed : List (String × List String))
    (specs : List FileSpec) (organized_files : List FileGroup) :
    Except PyErr VOut :=
  match validateLoopW allowed specs organized_files [] [] with
  | .error e => .error e
  | .ok (vl, viol) => .ok ⟨vl, viol, reportAll viol⟩

/-- `Uploader.validate_file_types` of `implemented_code.py` with its
literal tables (lines 92–110). -/
def validate_file_types (specs : List FileSpec) (organized_files : List FileGroup) :
    Except PyErr VOut :=
  validate_file_typesW allowed_extensions specs organized_files

/-- `Uploader.handle_upload_files` of `implemented_code.py`
(lines 56–75): validate only when both the organized files and the
specification are non-empty (truthy), else pass the input through. -/
def impl_handle_upload_files (specs : List FileSpec)
    (organized_files : List FileGroup) : Except PyErr (List FileGroup) :=
  if organized_files ≠ [] ∧ specs ≠ [] then
    (validate_file_types specs organized_files).map (fun o => o.valid_files)
  else .ok organized_files

/-! ### `plugin/__init__.py` — `BaseUploader` (lines 80–294) -/

/-- Lines 100–109: `get_file_extensions_config()`. -/
def base_extensions_config : List (String × List String) :=
  [("video", [".mp4", ".avi", ".mov", ".mkv", ".webm", ".flv", ".wmv"]),
   ("image", [".jpg", ".jpeg", ".png"]),
   ("pcd", [".pcd"]),
   ("text", [".txt", ".html"]),
   ("audio", [".mp3", ".wav"]),
   ("data", [".xml", ".bin", ".json", ".fbx"])]

/-- Lines 206–210: `file_path[0] if file_path else None` (applied when
the value is a list), with `None` propagating to a skip. -/
def baseNormalizeSlot (v : FileVal) : Option String :=
  match v with
  | .path p => some p
  | .flist [] => none
  | .flist (p :: _) => some p

/-- Lines 199–229, one slot of `BaseUploader.validate_file_types`:
`none` means the slot passes (or is skipped — missing spec, empty list,
or unrecognized `file_type`); `some (file_type, recorded)` means the
slot fails the extension check, where `recorded` is the extension
tracked in `filtered_by_type` (`'(no extension)'` for an empty one). -/
def baseCheckSlot (specs : List FileSpec) (cfg : List (String × List String))
    (spec_name : String) (fv : FileVal) : Option (String × String) :=
  match specs.find? (fun s => s.name == spec_name) with
  | none => none
  | some file_spec =>
    match baseNormalizeSlot fv with
    | none => none
    | some p =>
      let file_type := file_spec.file_type
      let file_extension := strLower (pySuffix p)
      match dictGet cfg file_type with
      | none => none
      | some exts =>
        let allowed_exts := exts.map strLower
        if file_extension ∈ allowed_exts then none
        else some (file_type,
          if file_extension = "" then "(no extension)" else file_extension)

/-- Lines 199–229: scan the group's slots, stopping at the first
invalid slot (`is_valid_group = False; break`). -/
def baseCheckGroup (specs : List FileSpec) (cfg : List (String × List String)) :
    List (String × FileVal) → Option (String × String)
  | [] => none
  | (spec_name, fv) :: rest =>
    match baseCheckSlot specs cfg spec_name fv with
    | none => baseCheckGroup specs cfg rest
    | some r => some r

/-- The `filtered_by_type` entry (lines 222–227): the set of filtered
extensions (insertion-ordered, duplicates collapsed) and the count. -/
structure FilteredInfo where
  extensions : List String
  count : Nat
deriving DecidableEq, Repr

/-- Lines 221–227: track one filtered file under its `file_type`. -/
def baseTrack (ftd : List (String × FilteredInfo)) (ft ext : String) :
    List (String × FilteredInfo) :=
  let info := (dictGet ftd ft).getD ⟨[], 0⟩
  let exts := if ext ∈ info.extensions then info.extensions
              else info.extensions ++ [ext]
  dictSet ftd ft ⟨exts, info.count + 1⟩

/-- Lines 195–233: the group loop of `BaseUploader.validate_file_types`. -/
def baseValidateLoop (specs : List FileSpec) (cfg : List (String × List String)) :
    List FileGroup → List FileGroup → List (String × FilteredInfo) →
    List FileGroup × List (String × FilteredInfo)
  | [], acc, ftd => (acc, ftd)
  | g :: gs, acc, ftd =>
    match baseCheckGroup specs cfg g.files with
    | none => baseValidateLoop specs cfg gs (acc ++ [g]) ftd
    | some (ft, ext) => baseValidateLoop specs cfg gs acc (baseTrack ftd ft ext)

/-- Lines 240–261: `_log_filtered_files`, one structured log line per
type with a positive count; the extension set is sorted for display. -/
def baseLogs (cfg : List (String × List String))
    (ftd : List (String × FilteredInfo)) : List LogMsg :=
  ftd.flatMap (fun kv =>
    if kv.2.count > 0 then
      [LogMsg.filteredByExtension kv.2.count kv.1
        (kv.2.extensions.mergeSort (fun a b => a ≤ b))
        ((dictGet cfg kv.1).getD [])]
    else [])

/-- `BaseUploader.validate_file_types` (lines 170–238): the guard at
line 188 returns the input untouched (and unreported) when either the
groups or the specification list is empty (falsy). -/
def base_validate_file_types (specs : List FileSpec)
    (organized_files : List FileGroup) : List FileGroup × List LogMsg :=
  if organized_files = [] ∨ specs = [] then (organized_files, [])
  else
    let cfg := base_extensions_config
    let (vl, ftd) := baseValidateLoop specs cfg organized_files [] []
    (vl, baseLogs cfg ftd)

/-- Line 132: `_filter_valid_files` — the default returns all files. -/
def filter_valid_files (files_to_validate : List FileGroup) : List FileGroup :=
  files_to_validate

/-- Lines 151–164: `validate_files` — extension validation, then the
custom filter. -/
def base_validate_files (specs : List FileSpec) (files : List FileGroup) :
    List FileGroup :=
  filter_valid_files (base_validate_file_types specs files).1

/-- The five list-transforming override points of the pipeline
(`organize_files`, `before_process`, `process_files`, `after_process`,
`validate_files`); `setup_directories` is side-effect only and carries
no list. -/
structure Stages where
  organize : List FileGroup → List FileGroup
  before : List FileGroup → List FileGroup
  process : List FileGroup → List FileGroup
  after : List FileGroup → List FileGroup
  validate : List FileGroup → List FileGroup

/-- `BaseUploader.handle_upload_files` (lines 263–294): the fixed
sequential pipeline over `organized_files`. -/
def handle_upload_files (st : Stages) (organized_files : List FileGroup) :
    List FileGroup :=
  let current_files := organized_files
  let current_files := st.organize current_files
  let current_files := st.before current_files
  let current_files := st.process current_files
  let current_files := st.after current_files
  let current_files := st.validate current_files
  current_files

/-- The default stage functions of `BaseUploader` (lines 135–164):
identity everywhere except final validation. -/
def defaultStages (specs : List FileSpec) : Stages :=
  { organize := fun files => files
    before := fun files => files
    process := fun files => files
    after := fun files => files
    validate := fun files => base_validate_files specs files }

/-! ### `plugin/upload.py` — `Uploader.before_process` (lines 67–149)

The external collaborators are parameters: `convert` models
`pdf2image.convert_from_path` (the page images themselves are opaque —
only their count and order are observable, through the saved paths), and
`tmp` models `tempfile.mkdtemp` as a supply of directory names indexed
by how many conversions have happened so far in the call. -/

/-- Lines 86–89: normalize the slot value and test for a convertible
document; returns the path when the slot holds (or starts with) a file
whose lowercase suffix is `.pdf`. -/
def slotPdfPath (fv : FileVal) : Option String :=
  match baseNormalizeSlot fv with
  | none => none
  | some p => if strLower (pySuffix p) = ".pdf" then some p else none

/-- Line 100: `temp_dir / f'{file_path.stem}_page_{page_num}.png'`. -/
def mkImagePath (temp_dir : String) (stem : String) (page_num : Nat) : String :=
  temp_dir ++ "/" ++ stem ++ "_page_" ++ Nat.repr page_num ++ ".png"

/-- Lines 98–121: the page group for 0-based page index `i` of a
converted document — a fresh `files` dict holding only the generated
image under the document's slot name, every non-`files` attribute of the
original group copied, and the four conversion metadata keys set. -/
def mkPageGroup (g : FileGroup) (spec_name : String) (temp_dir : String)
    (p : String) (total_pages : Nat) (i : Nat) : FileGroup :=
  let page_num := i + 1
  let image_path := mkImagePath temp_dir (pyStem p) page_num
  let meta := g.meta
  let meta := dictSet meta "total_pages" (.nat total_pages)
  let meta := dictSet meta "page_number" (.nat page_num)
  let meta := dictSet meta "original_filename" (.str (pyName p))
  let meta := dictSet meta "extraction_library" (.str "pdf2image")
  { files := [(spec_name, .path image_path)], meta := meta, extra := g.extra }

/-- What happened to a group that contained a convertible document:
either the fan-out (with its page groups and log lines), or a converter
failure (with its single error line). -/
inductive ConvOutcome where
  | converted (pageGroups : List FileGroup) (logs : List LogMsg)
  | failed (log : LogMsg)
deriving DecidableEq, Repr

/-- Lines 85–133: scan one group's slots in order for the first
convertible document; `none` when the group holds no such file.
`tempfile.mkdtemp` (line 95) runs only after a successful
`convert_from_path`, so `temp_dir` is consumed only in that branch. -/
def scanForPdf (convert : String → Except String Nat) (temp_dir : String)
    (g : FileGroup) : List (String × FileVal) → Option ConvOutcome
  | [] => none
  | (spec_name, fv) :: rest =>
    match slotPdfPath fv with
    | none => scanForPdf convert temp_dir g rest
    | some p =>
      match convert p with
      | .ok total_pages =>
        some (.converted
          ((List.range total_pages).map (mkPageGroup g spec_name temp_dir p total_pages))
          ((List.range total_pages).map (fun i =>
            LogMsg.pageConverted (i + 1) (mkImagePath temp_dir (pyStem p) (i + 1))) ++
           [LogMsg.pdfConverted p total_pages]))
      | .error e => some (.failed (.pdfError p e))

/-- Lines 136–147: the pass-through group — a fresh container with the
non-`files` attributes and every `files` entry copied by reference, so
it is extensionally the original group. -/
def passGroup (g : FileGroup) : FileGroup :=
  { files := g.files, meta := g.meta, extra := g.extra }

/-- Lines 79–149: the group loop of `before_process`.  `k` counts the
`tempfile.mkdtemp` calls made so far; page groups replace their original
group in sequence order, every other group passes through. -/
def before_processLoop (convert : String → Except String Nat)
    (tmp : Nat → String) : List FileGroup → Nat → List FileGroup × List LogMsg
  | [], _ => ([], [])
  | g :: gs, k =>
    match scanForPdf convert (tmp k) g g.files with
    | some (.converted pgs logs) =>
      let rest := before_processLoop convert tmp gs (k + 1)
      (pgs ++ rest.1, logs ++ rest.2)
    | some (.failed lg) =>
      let rest := before_processLoop convert tmp gs k
      (passGroup g :: rest.1, lg :: rest.2)
    | none =>
      let rest := before_processLoop convert tmp gs k
      (passGroup g :: rest.1, rest.2)

/-- `Uploader.before_process` of `plugin/upload.py`. -/
def before_process (convert : String → Except String Nat) (tmp : Nat → String)
    (organized_files : List FileGroup) : List FileGroup × List LogMsg :=
  before_processLoop convert tmp organized_files 0

/-! ### Spec-side predicates for the partition property

These two predicates are written from the specification's wording of
*exclusivity of exclusion* (§8.2), to be compared with the behaviour of
`validate_file_types`: a kept slot "satisfies the category-or-type
extension check" (or has an unrecognized category and type, which is
permissively accepted); an excluded group has a slot that "fails the
check or triggers a conversion warning". -/

/-- The claim's acceptance condition for one slot of a kept group:
whenever the slot's spec resolves (and the value denotes a single path),
the extension passes the category check, or — category unrecognized —
the type check, or both are unrecognized. -/
def specSlotAccepted (specs : List FileSpec) (sl : String × FileVal) : Bool :=
  match specs.find? (fun e => e.name == sl.1) with
  | none => true
  | some sp =>
    match normalizeSlot sl.2 with
    | .flist _ => true
    | .path p =>
      let ext := strLower (pySuffix p)
      match dictGet allowed_extensions (categoryOf sl.1) with
      | some exp => decide (ext ∈ exp)
      | none =>
        match dictGet allowed_extensions sp.file_type with
        | some texp => decide (ext ∈ texp)
        | none => true

/-- The claim's rejection condition for one slot of an excluded group:
the extension is in the conversion-warning table, or it fails the
category extension check. -/
def specSlotRejected (sl : String × FileVal) : Bool :=
  match normalizeSlot sl.2 with
  | .flist _ => false
  | .path p =>
    let ext := strLower (pySuffix p)
    decide (ext ∈ warning_extensions) ||
    (match dictGet allowed_extensions (categoryOf sl.1) with
     | some exp => decide (ext ∉ exp)
     | none => false)

/-- Decimal value of a digit character (left inverse of `Nat.digitChar`
on digits), used to show that `Nat.repr` is injective and hence that
generated page paths are pairwise distinct. -/
def chVal (c : Char) : Nat := c.toNat - 48

/-- Decidable equality of `Except` results, so that concrete validator
outcomes (including raised exceptions) can be checked by `decide`. -/
instance {eps alpha : Type} [DecidableEq eps] [DecidableEq alpha] :
    DecidableEq (Except eps alpha) := fun x y =>
  match x, y with
  | .error a, .error b =>
    if h : a = b then isTrue (by rw [h]) else isFalse (by simp [h])
  | .ok a, .ok b =>
    if h : a = b then isTrue (by rw [h]) else isFalse (by simp [h])
  | .error _, .ok _ => isFalse (by simp)
  | .ok _, .error _ => isFalse (by simp)

/-! ### Theorems -/

/-- Claim C9: `handle_upload_files` runs the stages in the fixed order
setup → organize → before_process → process_files → after_process →
validation, each stage consuming the previous stage's output and the
validation stage's list being returned; with every stage at its
`BaseUploader` default the result is the validated input list. -/
theorem claim_C9 :
    (∀ (st : Stages) (org : List FileGroup),
      handle_upload_files st org
        = st.validate (st.after (st.process (st.before (st.organize org))))) ∧
    (∀ (specs : List FileSpec) (org : List FileGroup),
      handle_upload_files (defaultStages specs) org
        = (base_validate_file_types specs org).1) :=
  ⟨fun _ _ => rfl, fun _ _ => rfl⟩

/-- Claim C3 (failing input): for slot `scan_0` — category `"scan"` not
a key of the extension table — with spec `file_type` `"image"` — a key —
and file `a.bmp` — extension not allowed for `"image"` — the validator
of `implemented_code.py` does not record the claimed violation: line 151
evaluates `allowed_extensions[file_category]` and raises
`KeyError('scan')`. -/
theorem claim_C3_keyError :
    dictGet allowed_extensions "scan" = none ∧
    dictGet allowed_extensions "image" = some [".jpg", ".jpeg", ".png"] ∧
    (".bmp" ∈ [".jpg", ".jpeg", ".png"]) = False ∧
    validate_file_types [⟨"scan_0", "image"⟩]
      [⟨[("scan_0", FileVal.path "a.bmp")], [], []⟩]
      = .error (.keyError "scan") := by
  refine ⟨by decide, by decide, by decide, rfl⟩

/-- Claim C4 (failing input): on a slot whose name matches no spec
entry, `BaseUploader.validate_file_types` skips the slot and keeps the
group, but the validator of `implemented_code.py` evaluates
`file_spec['file_type']` with `file_spec = None` (line 125) and raises a
`TypeError` to the caller. -/
theorem claim_C4_missing_spec :
    base_validate_file_types [⟨"other", "image"⟩]
      [⟨[("image_0", FileVal.path "a.png")], [], []⟩]
      = ([⟨[("image_0", FileVal.path "a.png")], [], []⟩], []) ∧
    validate_file_types [⟨"other", "image"⟩]
      [⟨[("image_0", FileVal.path "a.png")], [], []⟩]
      = .error .typeError := by
  refine ⟨by decide, rfl⟩

/-- A slot holding the one-element list `[p]` is checked exactly like a
slot holding `p`: lines 120–121 unwrap the list before any use. -/
theorem checkSlotW_singleton (allowed : List (String × List String))
    (specs : List FileSpec) (n : String) (p : String) :
    checkSlotW allowed specs n (.flist [p]) = checkSlotW allowed specs n (.path p) :=
  rfl

/-- Replacing one slot's value by a value that checks identically leaves
the whole group check unchanged. -/
theorem checkGroupW_congr (allowed : List (String × List String))
    (specs : List FileSpec) (s : String) (v₁ v₂ : FileVal)
    (h : ∀ n, checkSlotW allowed specs n v₁ = checkSlotW allowed specs n v₂) :
    ∀ (pre post : List (String × FileVal)),
      checkGroupW allowed specs (pre ++ (s, v₁) :: post)
        = checkGroupW allowed specs (pre ++ (s, v₂) :: post) := by
  intro pre post
  induction pre with
  | nil => simp [checkGroupW, h s]
  | cons hd tl ih =>
    simp only [List.cons_append, checkGroupW, List.append_eq]
    rw [ih]

/-- Claim C5: a slot holding the one-element list `[p]` validates
identically to the same slot holding `p` directly — the same
kept/excluded classification and the same violation record (and logs),
for any tables, specs and surrounding slots. -/
theorem claim_C5 (allowed : List (String × List String)) (specs : List FileSpec)
    (pre post : List (String × FileVal)) (s p : String)
    (m ex : List (String × MVal)) :
    checkGroupW allowed specs (pre ++ (s, FileVal.flist [p]) :: post)
      = checkGroupW allowed specs (pre ++ (s, FileVal.path p) :: post) ∧
    (validate_file_typesW allowed specs
        [⟨pre ++ (s, FileVal.flist [p]) :: post, m, ex⟩]).map
        (fun o => (o.valid_files.length, o.violations, o.logs))
      = (validate_file_typesW allowed specs
        [⟨pre ++ (s, FileVal.path p) :: post, m, ex⟩]).map
        (fun o => (o.valid_files.length, o.violations, o.logs)) := by
  have hg := checkGroupW_congr allowed specs s (FileVal.flist [p]) (FileVal.path p)
    (fun n => checkSlotW_singleton allowed specs n p) pre post
  refine ⟨hg, ?_⟩
  simp only [validate_file_typesW, validateLoopW, hg]
  cases checkGroupW allowed specs (pre ++ (s, FileVal.path p) :: post) with
  | error e => rfl
  | ok r => cases r with
    | valid => rfl
    | violation n v => rfl

/-- Slots that fall through (`continue`) do not affect the group scan:
the check of `pre ++ rest` is the check of `rest` when every slot of
`pre` continues. -/
theorem checkGroupW_skip (allowed : List (String × List String))
    (specs : List FileSpec) (pre rest : List (String × FileVal))
    (hpre : ∀ x ∈ pre, checkSlotW allowed specs x.1 x.2 = Except.ok SlotRes.cont) :
    checkGroupW allowed specs (pre ++ rest) = checkGroupW allowed specs rest := by
  induction pre with
  | nil => rfl
  | cons hd tl ih =>
    have hhd := hpre hd (by simp)
    simp only [List.cons_append, checkGroupW, hhd]
    exact ih (fun x hx => hpre x (by simp [hx]))

/-- Claim C2: a slot whose lowercase extension is in the
conversion-warning table makes the validator record a warning for that
slot, stop the group scan (the remaining slots are never examined), and
exclude the whole group from the returned list — for *every* extension
table, in particular one whose category or type allow-list also contains
that extension: the allow-list check is never reached. -/
theorem claim_C2 (allowed : List (String × List String)) (specs : List FileSpec)
    (pre post : List (String × FileVal)) (s : String) (fv : FileVal)
    (sp : FileSpec) (p : String) (m ex : List (String × MVal))
    (hpre : ∀ x ∈ pre, checkSlotW allowed specs x.1 x.2 = Except.ok SlotRes.cont)
    (hspec : specs.find? (fun e => e.name == s) = some sp)
    (hnorm : normalizeSlot fv = FileVal.path p)
    (hwarn : strLower (pySuffix p) ∈ warning_extensions) :
    checkGroupW allowed specs (pre ++ (s, fv) :: post)
      = .ok (.violation s ⟨none, some [strLower (pySuffix p)]⟩) ∧
    (validate_file_typesW allowed specs [⟨pre ++ (s, fv) :: post, m, ex⟩]).map
        (fun o => o.valid_files) = .ok [] ∧
    (validate_file_typesW allowed specs [⟨pre ++ (s, fv) :: post, m, ex⟩]).map
        (fun o => o.violations)
      = .ok [(s, ⟨none, some [strLower (pySuffix p)]⟩)] := by
  have hslot : checkSlotW allowed specs s fv = .ok (.warnStop (strLower (pySuffix p))) := by
    simp [checkSlotW, hspec, hnorm, hwarn]
  have hgrp : checkGroupW allowed specs (pre ++ (s, fv) :: post)
      = .ok (.violation s ⟨none, some [strLower (pySuffix p)]⟩) := by
    rw [checkGroupW_skip allowed specs pre _ hpre]
    simp [checkGroupW, hslot]
  refine ⟨hgrp, ?_, ?_⟩ <;>
    simp [validate_file_typesW, validateLoopW, hgrp, dictSet, Except.map]

/-- Witness for C2: extension `.tif` is a key of the conversion-warning
table *and* present in this extension table's allow-list for the slot's
category `image`; the group is nonetheless excluded with a warning
record and the trailing slot is never checked. -/
theorem claim_C2_witness :
    (∀ x ∈ ([] : List (String × FileVal)),
      checkSlotW [("image", [".tif", ".jpg"])] [⟨"image_0", "image"⟩] x.1 x.2
        = Except.ok SlotRes.cont) ∧
    [(⟨"image_0", "image"⟩ : FileSpec)].find? (fun e => e.name == "image_0")
      = some ⟨"image_0", "image"⟩ ∧
    normalizeSlot (FileVal.path "a.tif") = FileVal.path "a.tif" ∧
    strLower (pySuffix "a.tif") ∈ warning_extensions ∧
    strLower (pySuffix "a.tif") ∈ [".tif", ".jpg"] ∧
    checkGroupW [("image", [".tif", ".jpg"])] [⟨"image_0", "image"⟩]
        ([] ++ ("image_0", FileVal.path "a.tif") :: [("image_1", FileVal.path "b.xyz")])
      = .ok (.violation "image_0" ⟨none, some [strLower (pySuffix "a.tif")]⟩) := by
  refine ⟨(by intro x hx; cases hx), by decide, by decide, by decide, by decide, ?_⟩
  exact (claim_C2 [("image", [".tif", ".jpg"])] [⟨"image_0", "image"⟩]
    [] [("image_1", FileVal.path "b.xyz")] "image_0" (FileVal.path "a.tif")
    ⟨"image_0", "image"⟩ "a.tif" [] []
    (by intro x hx; cases hx) (by decide) (by decide) (by decide)).1

/-- Inversion of the per-slot check at a warning stop: the slot's value
denotes a single path whose lowercase suffix is the warned extension,
and that extension is in `warning_extensions`. -/
theorem checkSlotW_warnStop_inv (A : List (String × List String))
    (specs : List FileSpec) (n : String) (v : FileVal) (e : String)
    (h : checkSlotW A specs n v = .ok (.warnStop e)) :
    ∃ p, normalizeSlot v = .path p ∧ e = strLower (pySuffix p) ∧
      e ∈ warning_extensions := by
  unfold checkSlotW at h
  split at h
  · simp at h
  · rename_i sp hfind
    split at h
    · simp at h
    · rename_i p hnorm
      by_cases hw : strLower (pySuffix p) ∈ warning_extensions
      · simp only [hw, if_true, Except.ok.injEq, SlotRes.warnStop.injEq] at h
        exact ⟨p, hnorm, h.symm, h ▸ hw⟩
      · cases hcat : dictGet A (categoryOf n) with
        | some exp₀ =>
          simp only [hw, if_false, hcat] at h
          split at h <;> simp at h
        | none =>
          cases hft : dictGet A sp.file_type with
          | some texp =>
            simp only [hw, if_false, hcat, hft] at h
            split at h <;> simp at h
          | none => simp only [hw, if_false, hcat, hft] at h; simp at h

/-- Inversion of the per-slot check at an invalid stop: the slot's value
denotes a single path, its lowercase suffix is the recorded extension,
which is not warned, the slot-name category is a key of the table, and
the extension is missing from that category's allow-list (which is the
recorded expected list). -/
theorem checkSlotW_invalidStop_inv (A : List (String × List String))
    (specs : List FileSpec) (n : String) (v : FileVal) (e : String)
    (exp : List String)
    (h : checkSlotW A specs n v = .ok (.invalidStop e exp)) :
    ∃ p, normalizeSlot v = .path p ∧ e = strLower (pySuffix p) ∧
      e ∉ warning_extensions ∧ dictGet A (categoryOf n) = some exp ∧
      e ∉ exp := by
  unfold checkSlotW at h
  split at h
  · simp at h
  · rename_i sp hfind
    split at h
    · simp at h
    · rename_i p hnorm
      by_cases hw : strLower (pySuffix p) ∈ warning_extensions
      · simp [hw] at h
      · cases hcat : dictGet A (categoryOf n) with
        | some exp₀ =>
          simp only [hw, if_false, hcat] at h
          by_cases hin : strLower (pySuffix p) ∈ exp₀
          · simp [hin] at h
          · simp only [hin, if_false, Except.ok.injEq, SlotRes.invalidStop.injEq] at h
            obtain ⟨he, hexp⟩ := h
            subst he; subst hexp
            exact ⟨p, hnorm, rfl, hw, rfl, hin⟩
        | none =>
          cases hft : dictGet A sp.file_type with
          | some texp =>
            simp only [hw, if_false, hcat, hft] at h
            split at h <;> simp at h
          | none => simp only [hw, if_false, hcat, hft] at h; simp at h

/-- A group violation record has exactly one of the two shapes the
`break` paths produce: a single invalid extension with its expected
list, or a single warned extension (which is in `warning_extensions`). -/
theorem checkGroupW_violation_shape (A : List (String × List String))
    (specs : List FileSpec) :
    ∀ (fs : List (String × FileVal)) (n : String) (r : Violation),
      checkGroupW A specs fs = .ok (.violation n r) →
      (∃ e exp, e ∉ exp ∧ r = ⟨some ([e], exp), none⟩) ∨
      (∃ e, e ∈ warning_extensions ∧ r = ⟨none, some [e]⟩) := by
  intro fs
  induction fs with
  | nil => intro n r h; simp [checkGroupW] at h
  | cons hd tl ih =>
    intro n r h
    simp only [checkGroupW] at h
    split at h
    · simp at h
    · exact ih n r h
    · rename_i ext heq
      simp only [Except.ok.injEq, GroupRes.violation.injEq] at h
      obtain ⟨p, -, -, hmem⟩ := checkSlotW_warnStop_inv A specs hd.1 hd.2 ext heq
      right
      exact ⟨ext, hmem, h.2.symm⟩
    · rename_i ext exp heq
      simp only [Except.ok.injEq, GroupRes.violation.injEq] at h
      obtain ⟨p, -, -, -, -, hnotin⟩ := checkSlotW_invalidStop_inv A specs hd.1 hd.2 ext exp heq
      left
      exact ⟨ext, exp, hnotin, h.2.symm⟩

/-- Every warned extension is a key of the conversion-warning table. -/
theorem warning_extensions_key :
    ∀ e ∈ warning_extensions, (dictGet conversion_warnings e).isSome = true := by
  decide

/-- Claim C10: the accumulated violations are keyed by slot name only —
when two groups each trigger a violation on the same slot name, both are
excluded but the second record overwrites the first in the violations
dict, and the reporter emits exactly one log message for that slot
name. -/
theorem claim_C10 (specs : List FileSpec) (g₁ g₂ : FileGroup) (s : String)
    (r₁ r₂ : Violation)
    (h₁ : checkGroupW allowed_extensions specs g₁.files = .ok (.violation s r₁))
    (h₂ : checkGroupW allowed_extensions specs g₂.files = .ok (.violation s r₂)) :
    validate_file_types specs [g₁, g₂]
      = .ok ⟨[], [(s, r₂)], reportViolation (s, r₂)⟩ ∧
    (reportViolation (s, r₂)).length = 1 := by
  constructor
  · have hset : dictSet (dictSet [] s r₁) s r₂ = [(s, r₂)] := by
      simp [dictSet]
    simp [validate_file_types, validate_file_typesW, validateLoopW, h₁, h₂,
      reportAll, hset]
  · rcases checkGroupW_violation_shape allowed_extensions specs g₂.files s r₂ h₂ with
      ⟨e, exp, -, rfl⟩ | ⟨e, hmem, rfl⟩
    · simp [reportViolation]
    · have hk := warning_extensions_key e hmem
      rcases Option.isSome_iff_exists.mp hk with ⟨fmt, hfmt⟩
      simp [reportViolation, hfmt]

/-- Witness for C10: two groups violating on the same slot name
`image_0` (an invalid `.bmp`, then a warned `.tif`): both are excluded,
the violations dict holds only the second record, and one log line is
emitted for `image_0`. -/
theorem claim_C10_witness :
    checkGroupW allowed_extensions [⟨"image_0", "image"⟩]
        [("image_0", FileVal.path "a.bmp")]
      = .ok (.violation "image_0" ⟨some ([".bmp"], [".jpg", ".jpeg", ".png"]), none⟩) ∧
    checkGroupW allowed_extensions [⟨"image_0", "image"⟩]
        [("image_0", FileVal.path "b.tif")]
      = .ok (.violation "image_0" ⟨none, some [".tif"]⟩) ∧
    (validate_file_types [⟨"image_0", "image"⟩]
        [⟨[("image_0", FileVal.path "a.bmp")], [], []⟩,
         ⟨[("image_0", FileVal.path "b.tif")], [], []⟩]
      = .ok ⟨[], [("image_0", ⟨none, some [".tif"]⟩)],
          reportViolation ("image_0", ⟨none, some [".tif"]⟩)⟩ ∧
     (reportViolation ("image_0", (⟨none, some [".tif"]⟩ : Violation))).length = 1) :=
  ⟨by decide, by decide,
   claim_C10 [⟨"image_0", "image"⟩]
     ⟨[("image_0", FileVal.path "a.bmp")], [], []⟩
     ⟨[("image_0", FileVal.path "b.tif")], [], []⟩
     "image_0" ⟨some ([".bmp"], [".jpg", ".jpeg", ".png"]), none⟩
     ⟨none, some [".tif"]⟩ (by decide) (by decide)⟩

/-- The group loop only ever appends to the accumulator. -/
theorem validateLoopW_acc_mono (A : List (String × List String))
    (specs : List FileSpec) :
    ∀ (gs acc : List FileGroup) (viol : List (String × Violation))
      (vl : List FileGroup) (w : List (String × Violation)),
      validateLoopW A specs gs acc viol = .ok (vl, w) →
      ∀ x ∈ acc, x ∈ vl := by
  intro gs
  induction gs with
  | nil =>
    intro acc viol vl w h x hx
    simp only [validateLoopW, Except.ok.injEq, Prod.mk.injEq] at h
    exact h.1 ▸ hx
  | cons g tl ih =>
    intro acc viol vl w h x hx
    simp only [validateLoopW] at h
    split at h
    · simp at h
    · exact ih _ _ _ _ h x (by simp [hx])
    · exact ih _ _ _ _ h x hx

/-- Every member of the returned valid list was in the accumulator or
passed the group check. -/
theorem validateLoopW_mem_valid (A : List (String × List String))
    (specs : List FileSpec) :
    ∀ (gs acc : List FileGroup) (viol : List (String × Violation))
      (vl : List FileGroup) (w : List (String × Violation)),
      validateLoopW A specs gs acc viol = .ok (vl, w) →
      ∀ g ∈ vl, g ∈ acc ∨ checkGroupW A specs g.files = .ok .valid := by
  intro gs
  induction gs with
  | nil =>
    intro acc viol vl w h g hg
    simp only [validateLoopW, Except.ok.injEq, Prod.mk.injEq] at h
    exact Or.inl (h.1 ▸ hg)
  | cons hd tl ih =>
    intro acc viol vl w h g hg
    simp only [validateLoopW] at h
    split at h
    · simp at h
    · rename_i hchk
      rcases ih _ _ _ _ h g hg with hin | hvalid
      · rcases List.mem_append.mp hin with hl | hr
        · exact Or.inl hl
        · right
          rw [List.mem_singleton.mp hr]
          exact hchk
      · exact Or.inr hvalid
    · exact ih _ _ _ _ h g hg

/-- Every input group that passes the group check ends up in the
returned valid list. -/
theorem validateLoopW_valid_mem (A : List (String × List String))
    (specs : List FileSpec) :
    ∀ (gs acc : List FileGroup) (viol : List (String × Violation))
      (vl : List FileGroup) (w : List (String × Violation)),
      validateLoopW A specs gs acc viol = .ok (vl, w) →
      ∀ g ∈ gs, checkGroupW A specs g.files = .ok .valid → g ∈ vl := by
  intro gs
  induction gs with
  | nil => intro acc viol vl w h g hg; cases hg
  | cons hd tl ih =>
    intro acc viol vl w h g hg hvalid
    simp only [validateLoopW] at h
    rcases List.mem_cons.mp hg with rfl | htl
    · rw [hvalid] at h
      exact validateLoopW_acc_mono A specs tl _ _ _ _ h g (by simp)
    · split at h
      · simp at h
      · exact ih _ _ _ _ h g htl hvalid
      · exact ih _ _ _ _ h g htl hvalid

/-- When the loop returns, every input group's check returned a value
(no exception was raised on it). -/
theorem validateLoopW_no_error (A : List (String × List String))
    (specs : List FileSpec) :
    ∀ (gs acc : List FileGroup) (viol : List (String × Violation))
      (vl : List FileGroup) (w : List (String × Violation)),
      validateLoopW A specs gs acc viol = .ok (vl, w) →
      ∀ g ∈ gs, ∃ r, checkGroupW A specs g.files = .ok r := by
  intro gs
  induction gs with
  | nil => intro acc viol vl w h g hg; cases hg
  | cons hd tl ih =>
    intro acc viol vl w h g hg
    simp only [validateLoopW] at h
    rcases List.mem_cons.mp hg with rfl | htl
    · cases hchk : checkGroupW A specs g.files with
      | error e => rw [hchk] at h; simp at h
      | ok r => exact ⟨r, rfl⟩
    · split at h
      · simp at h
      · exact ih _ _ _ _ h g htl
      · exact ih _ _ _ _ h g htl

/-- On a list of groups that all pass, the loop appends them all and
leaves the violations dict untouched. -/
theorem validateLoopW_all_valid (A : List (String × List String))
    (specs : List FileSpec) :
    ∀ (gs acc : List FileGroup) (viol : List (String × Violation)),
      (∀ g ∈ gs, checkGroupW A specs g.files = .ok .valid) →
      validateLoopW A specs gs acc viol = .ok (acc ++ gs, viol) := by
  intro gs
  induction gs with
  | nil => intro acc viol _; simp [validateLoopW]
  | cons hd tl ih =>
    intro acc viol hall
    simp only [validateLoopW, hall hd (by simp)]
    rw [ih (acc ++ [hd]) viol (fun g hg => hall g (by simp [hg]))]
    simp

/-- Claim C8: `validate_file_types` is idempotent on its returned list —
re-validating the returned list with the same specs and tables returns
it unchanged (with no violations and no log lines). -/
theorem claim_C8 (A : List (String × List String)) (specs : List FileSpec)
    (gs : List FileGroup) (out : VOut)
    (h : validate_file_typesW A specs gs = .ok out) :
    validate_file_typesW A specs out.valid_files
      = .ok ⟨out.valid_files, [], []⟩ := by
  unfold validate_file_typesW at h ⊢
  cases hl : validateLoopW A specs gs [] [] with
  | error e => rw [hl] at h; simp at h
  | ok res =>
    rw [hl] at h
    obtain ⟨vl, w⟩ := res
    simp only [Except.ok.injEq] at h
    have hvalid : ∀ g ∈ out.valid_files, checkGroupW A specs g.files = .ok .valid := by
      intro g hg
      rw [← h] at hg
      rcases validateLoopW_mem_valid A specs gs [] [] vl w hl g hg with hin | hv
      · cases hin
      · exact hv
    rw [validateLoopW_all_valid A specs out.valid_files [] [] hvalid]
    simp [reportAll]

/-- Witness for C8: re-validating the list returned for a mixed
valid/invalid input returns it unchanged. -/
theorem claim_C8_witness :
    validate_file_typesW allowed_extensions [⟨"image_0", "image"⟩]
        [⟨[("image_0", FileVal.path "a.png")], [], []⟩,
         ⟨[("image_0", FileVal.path "a.bmp")], [], []⟩]
      = .ok ⟨[⟨[("image_0", FileVal.path "a.png")], [], []⟩],
          [("image_0", ⟨some ([".bmp"], [".jpg", ".jpeg", ".png"]), none⟩)],
          [.validationWarning "image_0" [".bmp"] [".jpg", ".jpeg", ".png"]]⟩ ∧
    validate_file_typesW allowed_extensions [⟨"image_0", "image"⟩]
        [⟨[("image_0", FileVal.path "a.png")], [], []⟩]
      = .ok ⟨[⟨[("image_0", FileVal.path "a.png")], [], []⟩], [], []⟩ :=
  ⟨by decide,
   claim_C8 allowed_extensions [⟨"image_0", "image"⟩]
     [⟨[("image_0", FileVal.path "a.png")], [], []⟩,
      ⟨[("image_0", FileVal.path "a.bmp")], [], []⟩]
     ⟨[⟨[("image_0", FileVal.path "a.png")], [], []⟩],
       [("image_0", ⟨some ([".bmp"], [".jpg", ".jpeg", ".png"]), none⟩)],
       [.validationWarning "image_0" [".bmp"] [".jpg", ".jpeg", ".png"]]⟩
     (by decide)⟩

/-- A kept group had every slot fall through (`continue`). -/
theorem checkGroupW_valid_slots (A : List (String × List String))
    (specs : List FileSpec) :
    ∀ (fs : List (String × FileVal)),
      checkGroupW A specs fs = .ok .valid →
      ∀ sl ∈ fs, checkSlotW A specs sl.1 sl.2 = .ok .cont := by
  intro fs
  induction fs with
  | nil => intro _ sl hsl; cases hsl
  | cons hd tl ih =>
    intro h sl hsl
    simp only [checkGroupW] at h
    split at h
    · simp at h
    · rename_i hchk
      rcases List.mem_cons.mp hsl with rfl | htl
      · exact hchk
      · exact ih h sl htl
    · simp at h
    · simp at h

/-- A slot that falls through satisfies the specification's acceptance
condition (category check, type fallback, or permissive fallback). -/
theorem checkSlotW_cont_accepted (specs : List FileSpec) (n : String)
    (v : FileVal)
    (h : checkSlotW allowed_extensions specs n v = .ok .cont) :
    specSlotAccepted specs (n, v) = true := by
  unfold checkSlotW at h
  unfold specSlotAccepted
  cases hfind : specs.find? (fun e => e.name == n) with
  | none => rfl
  | some sp =>
    rw [hfind] at h
    simp only
    cases hnorm : normalizeSlot v with
    | flist ps => simp [hnorm] at h
    | path p =>
      rw [hnorm] at h
      by_cases hw : strLower (pySuffix p) ∈ warning_extensions
      · simp [hw] at h
      · cases hcat : dictGet allowed_extensions (categoryOf n) with
        | some exp₀ =>
          simp only [hw, if_false, hcat] at h
          by_cases hin : strLower (pySuffix p) ∈ exp₀
          · simp [hin]
          · simp [hin] at h
        | none =>
          cases hft : dictGet allowed_extensions sp.file_type with
          | some texp =>
            simp only [hw, if_false, hcat, hft] at h
            by_cases hin : strLower (pySuffix p) ∈ texp
            · simp [hin]
            · simp [hin] at h
          | none => rfl

/-- An excluded group contains a slot satisfying the specification's
rejection condition: a warned extension or a failed category check. -/
theorem checkGroupW_violation_rejected (specs : List FileSpec) :
    ∀ (fs : List (String × FileVal)) (n : String) (r : Violation),
      checkGroupW allowed_extensions specs fs = .ok (.violation n r) →
      ∃ sl ∈ fs, specSlotRejected sl = true := by
  intro fs
  induction fs with
  | nil => intro n r h; simp [checkGroupW] at h
  | cons hd tl ih =>
    intro n r h
    simp only [checkGroupW] at h
    split at h
    · simp at h
    · obtain ⟨sl, hsl, hrej⟩ := ih n r h
      exact ⟨sl, by simp [hsl], hrej⟩
    · rename_i ext heq
      obtain ⟨p, hnorm, hext, hmem⟩ :=
        checkSlotW_warnStop_inv allowed_extensions specs hd.1 hd.2 ext heq
      refine ⟨hd, by simp, ?_⟩
      unfold specSlotRejected
      rw [hnorm]
      simp only [Bool.or_eq_true, decide_eq_true_eq]
      exact Or.inl (hext ▸ hmem)
    · rename_i ext exp heq
      obtain ⟨p, hnorm, hext, hnw, hcat, hnotin⟩ :=
        checkSlotW_invalidStop_inv allowed_extensions specs hd.1 hd.2 ext exp heq
      refine ⟨hd, by simp, ?_⟩
      unfold specSlotRejected
      rw [hnorm, hcat]
      simp only [Bool.or_eq_true, decide_eq_true_eq]
      exact Or.inr (hext ▸ hnotin)

/-- Claim C1: for every successful `validate_file_types` call, the
returned list and the excluded groups partition the input as the
specification states — every kept group's slots (with a resolvable
spec) pass the category-or-type check or are permissively accepted,
and every excluded input group has a slot that fails the check or
carries a conversion-warning extension. -/
theorem claim_C1 (specs : List FileSpec) (gs : List FileGroup) (out : VOut)
    (h : validate_file_types specs gs = .ok out) :
    ∀ g ∈ gs,
      (g ∈ out.valid_files → ∀ sl ∈ g.files, specSlotAccepted specs sl = true) ∧
      (g ∉ out.valid_files → ∃ sl ∈ g.files, specSlotRejected sl = true) := by
  unfold validate_file_types validate_file_typesW at h
  cases hl : validateLoopW allowed_extensions specs gs [] [] with
  | error e => rw [hl] at h; simp at h
  | ok res =>
    rw [hl] at h
    obtain ⟨vl, w⟩ := res
    simp only [Except.ok.injEq] at h
    subst h
    intro g hg
    constructor
    · intro hmem sl hsl
      rcases validateLoopW_mem_valid allowed_extensions specs gs [] [] vl w hl
          g hmem with hin | hvalid
      · cases hin
      · exact checkSlotW_cont_accepted specs sl.1 sl.2
          (checkGroupW_valid_slots allowed_extensions specs g.files hvalid sl hsl)
    · intro hnot
      obtain ⟨r, hr⟩ :=
        validateLoopW_no_error allowed_extensions specs gs [] [] vl w hl g hg
      cases r with
      | valid =>
        exact absurd
          (validateLoopW_valid_mem allowed_extensions specs gs [] [] vl w hl g hg hr)
          hnot
      | violation n v =>
        exact checkGroupW_violation_rejected specs g.files n v hr

/-- Witness for C1: a kept `.png` group and an excluded `.bmp` group of
the end-to-end scenario satisfy the two directions of the partition. -/
theorem claim_C1_witness :
    validate_file_types [⟨"image_0", "image"⟩]
        [⟨[("image_0", FileVal.path "a.png")], [], []⟩,
         ⟨[("image_0", FileVal.path "a.bmp")], [], []⟩]
      = .ok ⟨[⟨[("image_0", FileVal.path "a.png")], [], []⟩],
          [("image_0", ⟨some ([".bmp"], [".jpg", ".jpeg", ".png"]), none⟩)],
          [.validationWarning "image_0" [".bmp"] [".jpg", ".jpeg", ".png"]]⟩ ∧
    (∀ g ∈ [⟨[("image_0", FileVal.path "a.png")], [], []⟩,
            (⟨[("image_0", FileVal.path "a.bmp")], [], []⟩ : FileGroup)],
      (g ∈ [(⟨[("image_0", FileVal.path "a.png")], [], []⟩ : FileGroup)] →
        ∀ sl ∈ g.files, specSlotAccepted [⟨"image_0", "image"⟩] sl = true) ∧
      (g ∉ [(⟨[("image_0", FileVal.path "a.png")], [], []⟩ : FileGroup)] →
        ∃ sl ∈ g.files, specSlotRejected sl = true)) :=
  ⟨by decide,
   claim_C1 [⟨"image_0", "image"⟩]
     [⟨[("image_0", FileVal.path "a.png")], [], []⟩,
      ⟨[("image_0", FileVal.path "a.bmp")], [], []⟩]
     ⟨[⟨[("image_0", FileVal.path "a.png")], [], []⟩],
       [("image_0", ⟨some ([".bmp"], [".jpg", ".jpeg", ".png"]), none⟩)],
       [.validationWarning "image_0" [".bmp"] [".jpg", ".jpeg", ".png"]]⟩
     (by decide)⟩

/-- Slots holding no convertible document are skipped by the scan. -/
theorem scanForPdf_skip (convert : String → Except String Nat)
    (temp_dir : String) (g : FileGroup)
    (pre rest : List (String × FileVal))
    (hpre : ∀ x ∈ pre, slotPdfPath x.2 = none) :
    scanForPdf convert temp_dir g (pre ++ rest)
      = scanForPdf convert temp_dir g rest := by
  induction pre with
  | nil => rfl
  | cons hd tl ih =>
    have hhd := hpre hd (by simp)
    simp only [List.cons_append, scanForPdf, hhd]
    exact ih (fun x hx => hpre x (by simp [hx]))

/-- The pass-through group is the original group (same entries, fresh
container). -/
theorem passGroup_eq (g : FileGroup) : passGroup g = g := rfl

/-- Claim C7: when the converter raises on the group's first convertible
document, `before_process` emits exactly one error log line and passes
the original group through unchanged — same file references under the
same slot names, no metadata added, and no page groups for that
document. -/
theorem claim_C7 (convert : String → Except String Nat) (tmp : Nat → String)
    (pre post : List (String × FileVal)) (s : String) (fv : FileVal)
    (p e : String) (m ex : List (String × MVal))
    (hpre : ∀ x ∈ pre, slotPdfPath x.2 = none)
    (hpdf : slotPdfPath fv = some p)
    (hcv : convert p = .error e) :
    before_process convert tmp [⟨pre ++ (s, fv) :: post, m, ex⟩]
      = ([⟨pre ++ (s, fv) :: post, m, ex⟩], [LogMsg.pdfError p e]) := by
  have hscan : scanForPdf convert (tmp 0) ⟨pre ++ (s, fv) :: post, m, ex⟩
      (pre ++ (s, fv) :: post) = some (.failed (.pdfError p e)) := by
    rw [scanForPdf_skip convert (tmp 0) _ pre _ hpre]
    simp [scanForPdf, hpdf, hcv]
  simp [before_process, before_processLoop, hscan, passGroup]

/-- Witness for C7: a failing converter on `a.pdf` leaves the original
group (including its trailing slot and metadata) as the sole output with
one error line. -/
theorem claim_C7_witness :
    (∀ x ∈ [("txt_0", FileVal.path "n.txt")], slotPdfPath x.2 = none) ∧
    slotPdfPath (FileVal.path "a.pdf") = some "a.pdf" ∧
    (fun _ : String => (Except.error "boom" : Except String Nat)) "a.pdf"
      = .error "boom" ∧
    before_process (fun _ => .error "boom") (fun _ => "/tmp/t0")
        [⟨[("txt_0", FileVal.path "n.txt"), ("doc_0", FileVal.path "a.pdf")],
          [("m", MVal.nat 1)], []⟩]
      = ([⟨[("txt_0", FileVal.path "n.txt"), ("doc_0", FileVal.path "a.pdf")],
          [("m", MVal.nat 1)], []⟩], [LogMsg.pdfError "a.pdf" "boom"]) :=
  ⟨by decide, by decide, rfl,
   claim_C7 (fun _ => .error "boom") (fun _ => "/tmp/t0")
     [("txt_0", FileVal.path "n.txt")] [] "doc_0" (FileVal.path "a.pdf")
     "a.pdf" "boom" [("m", MVal.nat 1)] []
     (by decide) (by decide) rfl⟩

/-- `chVal` inverts `Nat.digitChar` on decimal digits. -/
theorem chVal_digitChar : ∀ d < 10, chVal (Nat.digitChar d) = d := by decide

/-- Folding the decimal parse over the rendered digits recovers the
value: the core rendering loop prepends the digits of `n` before `ds`. -/
theorem foldl_toDigitsCore :
    ∀ (fuel n : Nat), n ≤ fuel → ∀ (ds : List Char),
      (Nat.toDigitsCore 10 fuel n ds).foldl (fun a c => 10 * a + chVal c) 0
        = ds.foldl (fun a c => 10 * a + chVal c) n := by
  intro fuel
  induction fuel with
  | zero =>
    intro n hn ds
    have : n = 0 := Nat.le_zero.mp hn
    subst this
    rfl
  | succ fuel ih =>
    intro n hn ds
    simp only [Nat.toDigitsCore]
    have hm : chVal (Nat.digitChar (n % 10)) = n % 10 :=
      chVal_digitChar _ (Nat.mod_lt _ (by omega))
    by_cases h0 : n / 10 = 0
    · have hlt : n < 10 := (Nat.div_eq_zero_iff (by omega)).mp h0
      simp only [h0, if_true, List.foldl_cons, hm, Nat.mul_zero, Nat.zero_add]
      rw [Nat.mod_eq_of_lt hlt]
    · have hpos : 0 < n := by
        rcases Nat.eq_zero_or_pos n with rfl | hp
        · simp at h0
        · exact hp
      have hfuel : n / 10 ≤ fuel := by
        have := Nat.div_lt_self hpos (by omega : 1 < 10)
        omega
      simp only [h0, if_false]
      rw [ih (n / 10) hfuel (Nat.digitChar (n % 10) :: ds)]
      simp only [List.foldl_cons, hm]
      rw [Nat.div_add_mod]

/-- The decimal parse is a left inverse of `Nat.toDigits 10`. -/
theorem parse_toDigits (n : Nat) :
    (Nat.toDigits 10 n).foldl (fun a c => 10 * a + chVal c) 0 = n := by
  unfold Nat.toDigits
  rw [foldl_toDigitsCore (n + 1) n (by omega) []]
  rfl

/-- Two numbers rendering to the same characters are equal. -/
theorem repr_data_inj (p q : Nat) (h : (Nat.repr p).data = (Nat.repr q).data) :
    p = q := by
  have hd : Nat.toDigits 10 p = Nat.toDigits 10 q := h
  rw [← parse_toDigits p, ← parse_toDigits q, hd]

/-- The characters of a generated page path, split before the fixed
`.png` tail. -/
theorem mkImagePath_data (d st : String) (pn : Nat) :
    (mkImagePath d st pn).data
      = d.data ++ "/".data ++ st.data ++ "_page_".data ++ (Nat.repr pn).data
          ++ ['.', 'p', 'n', 'g'] := by
  simp [mkImagePath]

/-- For a fixed directory and stem, distinct page numbers give distinct
generated image paths. -/
theorem mkImagePath_inj (d st : String) (p q : Nat)
    (h : mkImagePath d st p = mkImagePath d st q) : p = q := by
  have hdata := congrArg String.data h
  rw [mkImagePath_data, mkImagePath_data] at hdata
  simp only [List.append_assoc] at hdata
  have h1 := List.append_cancel_left hdata
  have h2 := List.append_cancel_left h1
  have h3 := List.append_cancel_left h2
  have h4 := List.append_cancel_left h3
  exact repr_data_inj p q (List.append_cancel_right h4)

/-- The final path component is a suffix of the character list. -/
theorem afterLastSlash_decomp (cs : List Char) :
    ∃ t, cs = t ++ afterLastSlash cs := by
  refine ⟨(cs.reverse.dropWhile (fun c => c ≠ '/')).reverse, ?_⟩
  unfold afterLastSlash
  conv_lhs => rw [← List.reverse_reverse cs,
    ← List.takeWhile_append_dropWhile (p := fun c => c ≠ '/') (l := cs.reverse)]
  rw [List.reverse_append]

/-- A path's suffix is empty, or a nonempty tail of its characters. -/
theorem pySuffix_decomp (s : String) :
    pySuffix s = "" ∨
    ((pySuffix s).data ≠ [] ∧ ∃ t, s.data = t ++ (pySuffix s).data) := by
  have hchar : pySuffix s = "" ∨
      ∃ i, 0 < i ∧ i < (afterLastSlash s.data).length - 1 ∧
        pySuffix s = ⟨(afterLastSlash s.data).drop i⟩ := by
    unfold pySuffix
    cases hdot : lastDotPos (afterLastSlash s.data) with
    | none => exact Or.inl rfl
    | some i =>
      by_cases hc : 0 < i ∧ i < (afterLastSlash s.data).length - 1
      · exact Or.inr ⟨i, hc.1, hc.2, by simp [hc.1, hc.2]⟩
      · exact Or.inl (by simp [hc])
  rcases hchar with h | ⟨i, hi1, hi2, heq⟩
  · exact Or.inl h
  · have hdata : (pySuffix s).data = (afterLastSlash s.data).drop i := by
      rw [heq]
    right
    rw [hdata]
    constructor
    · intro hnil
      have hlen := congrArg List.length hnil
      simp only [List.length_drop, List.length_nil] at hlen
      omega
    · obtain ⟨t, ht⟩ := afterLastSlash_decomp s.data
      refine ⟨t ++ (afterLastSlash s.data).take i, ?_⟩
      rw [List.append_assoc, List.take_append_drop]
      exact ht

/-- A path whose lowercase suffix is `.pdf` is never a generated page
image path (those end in `.png`). -/
theorem pdf_ne_image (p : String) (hp : strLower (pySuffix p) = ".pdf")
    (d st : String) (pn : Nat) : p ≠ mkImagePath d st pn := by
  intro heq
  rcases pySuffix_decomp p with hnil | ⟨hne, t, hdec⟩
  · rw [hnil] at hp
    exact absurd hp (by decide)
  · have hmap : (pySuffix p).data.map Char.toLower = ['.', 'p', 'd', 'f'] :=
      congrArg String.data hp
    have h1 : p.data.map Char.toLower
        = t.map Char.toLower ++ (['.', 'p', 'd'] ++ ['f']) := by
      rw [hdec, List.map_append, hmap]
      rfl
    have h2 : (mkImagePath d st pn).data.map Char.toLower
        = (d.data ++ "/".data ++ st.data ++ "_page_".data
            ++ (Nat.repr pn).data).map Char.toLower ++ (['.', 'p', 'n'] ++ ['g']) := by
      rw [mkImagePath_data]
      rw [List.map_append]
      rfl
    have e1 : (p.data.map Char.toLower).getLast? = some 'f' := by
      rw [h1, ← List.append_assoc, List.getLast?_concat]
    have e2 : (p.data.map Char.toLower).getLast? = some 'g' := by
      rw [heq, h2, ← List.append_assoc, List.getLast?_concat]
    rw [e1] at e2
    exact absurd (Option.some.inj e2) (by decide)

/-- Inversion of the convertible-document test: the slot value denotes a
single path whose lowercase suffix is `.pdf`. -/
theorem slotPdfPath_inv (fv : FileVal) (p : String)
    (h : slotPdfPath fv = some p) :
    baseNormalizeSlot fv = some p ∧ strLower (pySuffix p) = ".pdf" := by
  unfold slotPdfPath at h
  cases hb : baseNormalizeSlot fv with
  | none => simp [hb] at h
  | some q =>
    simp only [hb] at h
    by_cases hs : strLower (pySuffix q) = ".pdf"
    · rw [if_pos hs] at h
      have hqp := Option.some.inj h
      subst hqp
      exact ⟨rfl, hs⟩
    · rw [if_neg hs] at h
      simp at h

/-- The `files` dict of a generated page group holds exactly the image
path under the document's slot name. -/
theorem mkPageGroup_files (g : FileGroup) (s td p : String) (n i : Nat) :
    (mkPageGroup g s td p n i).files
      = [(s, FileVal.path (mkImagePath td (pyStem p) (i + 1)))] := rfl

/-- Claim C6: converting a group whose first convertible document has N
pages emits exactly N page groups in its place, in page order — each
holding the generated image under the document's slot name, the original
metadata with `total_pages`, 1-based `page_number`, `original_filename`
and `extraction_library` set, and the other attributes copied; the
generated paths are pairwise distinct and the original group is not in
the output. -/
theorem claim_C6 (convert : String → Except String Nat) (tmp : Nat → String)
    (pre post : List (String × FileVal)) (s : String) (fv : FileVal)
    (p : String) (n : Nat) (m ex : List (String × MVal))
    (hpre : ∀ x ∈ pre, slotPdfPath x.2 = none)
    (hpdf : slotPdfPath fv = some p)
    (hcv : convert p = .ok n) :
    (before_process convert tmp [⟨pre ++ (s, fv) :: post, m, ex⟩]).1.length = n ∧
    (∀ i, i < n →
      (before_process convert tmp [⟨pre ++ (s, fv) :: post, m, ex⟩]).1[i]?
        = some ⟨[(s, FileVal.path (mkImagePath (tmp 0) (pyStem p) (i + 1)))],
            dictSet (dictSet (dictSet (dictSet m "total_pages" (MVal.nat n))
              "page_number" (MVal.nat (i + 1)))
              "original_filename" (MVal.str (pyName p)))
              "extraction_library" (MVal.str "pdf2image"),
            ex⟩) ∧
    (∀ i j, i < n → j < n →
      mkImagePath (tmp 0) (pyStem p) (i + 1) = mkImagePath (tmp 0) (pyStem p) (j + 1) →
      i = j) ∧
    (⟨pre ++ (s, fv) :: post, m, ex⟩ : FileGroup) ∉
      (before_process convert tmp [⟨pre ++ (s, fv) :: post, m, ex⟩]).1 := by
  have hscan : scanForPdf convert (tmp 0) ⟨pre ++ (s, fv) :: post, m, ex⟩
      (pre ++ (s, fv) :: post)
      = some (.converted
          ((List.range n).map
            (mkPageGroup ⟨pre ++ (s, fv) :: post, m, ex⟩ s (tmp 0) p n))
          ((List.range n).map (fun i =>
            LogMsg.pageConverted (i + 1) (mkImagePath (tmp 0) (pyStem p) (i + 1))) ++
           [LogMsg.pdfConverted p n])) := by
    rw [scanForPdf_skip convert (tmp 0) _ pre _ hpre]
    simp [scanForPdf, hpdf, hcv]
  have hout : (before_process convert tmp [⟨pre ++ (s, fv) :: post, m, ex⟩]).1
      = (List.range n).map
          (mkPageGroup ⟨pre ++ (s, fv) :: post, m, ex⟩ s (tmp 0) p n) := by
    simp [before_process, before_processLoop, hscan]
  refine ⟨?_, ?_, ?_, ?_⟩
  · rw [hout]; simp
  · intro i hi
    rw [hout, List.getElem?_map, List.getElem?_range hi]
    rfl
  · intro i j hi hj hij
    have := mkImagePath_inj (tmp 0) (pyStem p) (i + 1) (j + 1) hij
    omega
  · intro hmem
    rw [hout] at hmem
    rcases List.mem_map.mp hmem with ⟨i, hi, hgi⟩
    have hfiles := congrArg FileGroup.files hgi
    simp only [mkPageGroup_files] at hfiles
    have hlen := congrArg List.length hfiles
    simp only [List.length_append, List.length_cons, List.length_nil] at hlen
    have hpre0 : pre = [] := List.eq_nil_of_length_eq_zero (by omega)
    have hpost0 : post = [] := List.eq_nil_of_length_eq_zero (by omega)
    subst hpre0; subst hpost0
    have hpair : (s, FileVal.path (mkImagePath (tmp 0) (pyStem p) (i + 1)))
        = (s, fv) := by
      have hh := congrArg (fun l => l.headD (s, fv)) hfiles
      simpa using hh
    have hfv : FileVal.path (mkImagePath (tmp 0) (pyStem p) (i + 1)) = fv :=
      congrArg Prod.snd hpair
    rw [← hfv] at hpdf
    obtain ⟨hbn, hsuf⟩ := slotPdfPath_inv _ p hpdf
    have himg : some (mkImagePath (tmp 0) (pyStem p) (i + 1)) = some p := hbn
    exact pdf_ne_image p hsuf (tmp 0) (pyStem p) (i + 1)
      (Option.some.inj himg).symm

/-- Witness for C6: a 3-page conversion of `docs/scan.pdf` in slot
`doc_0` (after a non-convertible slot, before an unscanned one) fans out
into exactly three page groups with the stated metadata, distinct
generated paths, and no original group. -/
theorem claim_C6_witness :
    (∀ x ∈ [("txt_0", FileVal.path "n.txt")], slotPdfPath x.2 = none) ∧
    slotPdfPath (FileVal.path "docs/scan.pdf") = some "docs/scan.pdf" ∧
    (fun _ : String => (Except.ok 3 : Except String Nat)) "docs/scan.pdf"
      = .ok 3 ∧
    ((before_process (fun _ => .ok 3) (fun _ => "/tmp/t0")
        [⟨[("txt_0", FileVal.path "n.txt")] ++
            ("doc_0", FileVal.path "docs/scan.pdf") :: [("x", FileVal.path "y.pdf")],
          [("tag", MVal.str "t")], [("job", MVal.nat 7)]⟩]).1.length = 3 ∧
     (∀ i, i < 3 →
       (before_process (fun _ => .ok 3) (fun _ => "/tmp/t0")
        [⟨[("txt_0", FileVal.path "n.txt")] ++
            ("doc_0", FileVal.path "docs/scan.pdf") :: [("x", FileVal.path "y.pdf")],
          [("tag", MVal.str "t")], [("job", MVal.nat 7)]⟩]).1[i]?
         = some ⟨[("doc_0", FileVal.path
               (mkImagePath "/tmp/t0" (pyStem "docs/scan.pdf") (i + 1)))],
             dictSet (dictSet (dictSet (dictSet [("tag", MVal.str "t")]
               "total_pages" (MVal.nat 3))
               "page_number" (MVal.nat (i + 1)))
               "original_filename" (MVal.str (pyName "docs/scan.pdf")))
               "extraction_library" (MVal.str "pdf2image"),
             [("job", MVal.nat 7)]⟩) ∧
     (∀ i j, i < 3 → j < 3 →
       mkImagePath "/tmp/t0" (pyStem "docs/scan.pdf") (i + 1)
         = mkImagePath "/tmp/t0" (pyStem "docs/scan.pdf") (j + 1) → i = j) ∧
     (⟨[("txt_0", FileVal.path "n.txt")] ++
         ("doc_0", FileVal.path "docs/scan.pdf") :: [("x", FileVal.path "y.pdf")],
       [("tag", MVal.str "t")], [("job", MVal.nat 7)]⟩ : FileGroup) ∉
       (before_process (fun _ => .ok 3) (fun _ => "/tmp/t0")
        [⟨[("txt_0", FileVal.path "n.txt")] ++
            ("doc_0", FileVal.path "docs/scan.pdf") :: [("x", FileVal.path "y.pdf")],
          [("tag", MVal.str "t")], [("job", MVal.nat 7)]⟩]).1) :=
  ⟨by decide, by decide, rfl,
   claim_C6 (fun _ => .ok 3) (fun _ => "/tmp/t0")
     [("txt_0", FileVal.path "n.txt")] [("x", FileVal.path "y.pdf")]
     "doc_0" (FileVal.path "docs/scan.pdf") "docs/scan.pdf" 3
     [("tag", MVal.str "t")] [("job", MVal.nat 7)]
     (by decide) (by decide) rfl⟩
